import Mathlib

/-!
Verification development for the HarnessSync synchronization engine
(claude-code-plugin-marketplace / plugins/HarnessSync).

Python dictionaries are embedded as association lists that keep the
insertion order of keys, with `dictSet` reproducing CPython assignment
semantics (replace in place when the key exists, append otherwise) and
`dictGet` reproducing key lookup.  Python exceptions in adapter code are
embedded as `Except String`.  Wall-clock timestamps are passed in as an
explicit `now : String` parameter.
-/

namespace HarnessSync


/-- Association-list lookup: first binding of the key, if any.  Dicts built
with `dictSet` have unique keys, so first and last bindings coincide. -/
def dictGet {α : Type} : List (String × α) → String → Option α
  | [], _ => none
  | p :: t, k => if p.1 = k then some p.2 else dictGet t k

/-- Python membership test `k in d`. -/
def dictMem {α : Type} (d : List (String × α)) (k : String) : Bool :=
  (dictGet d k).isSome

/-- CPython `d[k] = v`: replace the value in place when the key is present
(keeping its position), otherwise append the new binding. -/
def dictSet {α : Type} (d : List (String × α)) (k : String) (v : α) :
    List (String × α) :=
  if dictMem d k then
    d.map (fun p => if p.1 = k then (k, v) else p)
  else
    d ++ [(k, v)]

/-- CPython `d.update(entries)`: assign each binding of `entries` in order. -/
def dictUpdate {α : Type} (d entries : List (String × α)) : List (String × α) :=
  entries.foldl (fun d p => dictSet d p.1 p.2) d

/-- Keys of an association list are pairwise distinct. -/
def keysNodup {α : Type} (d : List (String × α)) : Prop :=
  (d.map Prod.fst).Nodup

instance {α : Type} (d : List (String × α)) : Decidable (keysNodup d) := by
  unfold keysNodup
  infer_instance

/-- Loop body that conditionally assigns `key p ↦ v` into the dict. -/
def condSetStep {α β : Type} (key : β → String) (val : β → Option α)
    (d : List (String × α)) (p : β) : List (String × α) :=
  match val p with
  | some v => dictSet d (key p) v
  | none => d

/-- Loop body that inserts `key p ↦ f p` only when the key is absent. -/
def insertAbsentStep {α β : Type} (key : β → String) (f : β → α)
    (d : List (String × α)) (p : β) : List (String × α) :=
  if dictMem d (key p) then d else dictSet d (key p) (f p)

/-- First element of the list whose key equals `k`. -/
def findKey {β : Type} (key : β → String) (k : String) : List β → Option β
  | [] => none
  | p :: t => if key p = k then some p else findKey key k t

/-! Secret detector (src/secret_detector.py).

Python `str.upper`, `startswith` and the substring operator `in` are
embedded on character lists; `re.match` of the anchored pattern
`[A-Za-z0-9_\-+=/.]{16,}` (with `$` also accepting one trailing newline)
is embedded as an explicit character-class check. -/

/-- Needle is a leading segment of the haystack (Python `startswith`). -/
def leadsL : List Char → List Char → Bool
  | [], _ => true
  | _ :: _, [] => false
  | a :: as, b :: bs => a = b && leadsL as bs

/-- Needle occurs contiguously in the haystack (Python `in` on strings). -/
def occursIn (n : List Char) : List Char → Bool
  | [] => n.isEmpty
  | b :: bs => leadsL n (b :: bs) || occursIn n bs

/-- Python `str.upper` restricted to ASCII, matching the ASCII constants the
detector compares against. -/
def strUpper (s : String) : String :=
  String.mk (s.data.map Char.toUpper)

/-- Characters of the class `[A-Za-z0-9_\-+=/.]` in SECRET_VALUE_PATTERN. -/
def isSecretValueChar (c : Char) : Bool :=
  c.isAlphanum || c = '_' || c = '-' || c = '+' || c = '=' || c = '/' || c = '.'

/-- Embedding of `SECRET_VALUE_PATTERN.match(value)`: the whole value (up to
one trailing newline accepted by `$`) is 16 or more class characters. -/
def secretValuePattern (s : String) : Bool :=
  let chars := s.data
  let core := if chars.getLast? = some '\n' then chars.dropLast else chars
  decide (core.length ≥ 16) && core.all isSecretValueChar

/-- Keyword fragments looked for in environment-variable names. -/
def SECRET_KEYWORDS : List String :=
  ["API_KEY", "APIKEY", "API-KEY",
   "SECRET", "SECRET_KEY",
   "PASSWORD", "PASSWD", "PWD",
   "TOKEN", "ACCESS_TOKEN", "AUTH_TOKEN",
   "PRIVATE_KEY"]

/-- Whitelisted leading fragments of test/demo variable names. -/
def SAFE_PREFIXES : List String :=
  ["TEST_", "EXAMPLE_", "DEMO_", "MOCK_", "FAKE_", "DUMMY_"]

/-- Detection record produced by the scanner; by construction it has no
field holding the variable's value. -/
structure Detection where
  var_name : String
  keywords_matched : List String
  confidence : String
  reason : String
deriving DecidableEq, Repr

/-- Whitelist test of `SecretDetector.scan` for one variable name. -/
def safeName (var_name : String) : Bool :=
  SAFE_PREFIXES.any (fun pre => leadsL pre.data (strUpper var_name).data)

/-- Keywords of SECRET_KEYWORDS contained in the upper-cased name. -/
def matchedKeywords (var_name : String) : List String :=
  SECRET_KEYWORDS.filter (fun kw => occursIn kw.data (strUpper var_name).data)

/-- Loop body of `SecretDetector.scan` for a single environment variable. -/
def scanVar (var_name var_value : String) : Option Detection :=
  if safeName var_name then none
  else
    let matched := matchedKeywords var_name
    if matched.isEmpty then none
    else if secretValuePattern var_value then
      some { var_name := var_name,
             keywords_matched := matched,
             confidence := "medium",
             reason := "Contains keywords: " ++ String.intercalate ", " matched }
    else none

/-- Embedding of `SecretDetector.scan`: iterate the environment in order,
appending one detection per flagged variable. -/
def scan (env_vars : List (String × String)) : List Detection :=
  env_vars.filterMap (fun p => scanVar p.1 p.2)

/-- Server configuration as consumed by `scan_mcp_env`: only the `env`
dictionary is read. -/
structure ServerConfig where
  env : List (String × String)
deriving DecidableEq

/-- Embedding of `SecretDetector.scan_mcp_env`: merge every server's env
dictionary (later servers overwrite same-named variables) and scan. -/
def scan_mcp_env (mcp_servers : List (String × ServerConfig)) : List Detection :=
  scan (mcp_servers.foldl (fun acc s => dictUpdate acc s.2.env) [])

/-- Embedding of `SecretDetector.should_block`. -/
def should_block (detections : List Detection) (allow_secrets : Bool) : Bool :=
  if detections.isEmpty then false
  else if allow_secrets then false
  else true

/-- Embedding of `SecretDetector.format_warnings`: lists variable names and
reasons, never values. -/
def format_warnings (detections : List Detection) : String :=
  if detections.isEmpty then ""
  else
    let header := "\n⚠ Detected " ++ toString detections.length ++
      " potential secret(s) in environment variables:"
    let entries := detections.map (fun d => "  · " ++ d.var_name ++ " — " ++ d.reason)
    String.intercalate "\n"
      (header :: entries ++
        ["\nSecrets should not be synced to target configs.",
         "Use --allow-secrets to override this warning (NOT recommended)."])

/-! SyncResult (src/adapters/result.py). -/

/-- Structured result for sync operations. -/
structure SyncResult where
  synced : Nat := 0
  skipped : Nat := 0
  failed : Nat := 0
  adapted : Nat := 0
  synced_files : List String := []
  skipped_files : List String := []
  failed_files : List String := []
deriving DecidableEq, Repr

/-- Embedding of `SyncResult.merge`: counts added, file lists concatenated. -/
def SyncResult.merge (a other : SyncResult) : SyncResult :=
  { synced := a.synced + other.synced,
    skipped := a.skipped + other.skipped,
    failed := a.failed + other.failed,
    adapted := a.adapted + other.adapted,
    synced_files := a.synced_files ++ other.synced_files,
    skipped_files := a.skipped_files ++ other.skipped_files,
    failed_files := a.failed_files ++ other.failed_files }

/-- Embedding of the `SyncResult.total` property. -/
def SyncResult.total (r : SyncResult) : Nat :=
  r.synced + r.skipped + r.failed

/-- Embedding of the `SyncResult.status` property. -/
def SyncResult.status (r : SyncResult) : String :=
  if r.total = 0 then "nothing"
  else if r.failed = 0 then "success"
  else if r.synced > 0 ∧ r.failed > 0 then "partial"
  else "failed"

/-- Status string computed inline by `StateManager.record_sync` from the
three counters it receives (the `skipped` counter is accepted but unused
by the branch structure, exactly as in the source). -/
def recordSyncStatus (synced skipped failed : Nat) : String :=
  if failed = 0 then "success"
  else if synced > 0 ∧ failed > 0 then "partial"
  else "failed"

/-- Status function of §3 of the spec, as computed by `SyncResult.status`
on a bare counter triple. -/
def statusOfCounters (synced skipped failed : Nat) : String :=
  SyncResult.status
    { synced := synced, skipped := skipped, failed := failed }

/-! State manager (src/state_manager.py).

The persisted JSON document is embedded structurally (v2 schema); the
wall-clock `datetime.now()` timestamps are passed in explicitly. -/

/-- Plugin metadata stored per plugin name. -/
structure PluginMeta where
  version : String := "unknown"
  mcp_count : Nat := 0
  mcp_servers : List String := []
  last_sync : String := ""
deriving DecidableEq, Repr

/-- Per-target record written by `record_sync`. -/
structure TargetRecord where
  last_sync : String := ""
  status : String := ""
  scope : String := ""
  file_hashes : List (String × String) := []
  sync_method : List (String × String) := []
  items_synced : Nat := 0
  items_skipped : Nat := 0
  items_failed : Nat := 0
deriving DecidableEq, Repr

/-- Per-account nested record of the v2 schema. -/
structure AccountState where
  last_sync : Option String := none
  targets : List (String × TargetRecord) := []
  plugins : List (String × PluginMeta) := []
deriving DecidableEq, Repr

/-- The v2 state document: flat `targets` and `plugins` sections for the
account-less path, plus per-account nested sections. -/
structure StateDoc where
  last_sync : Option String := none
  targets : List (String × TargetRecord) := []
  accounts : List (String × AccountState) := []
  plugins : List (String × PluginMeta) := []
deriving DecidableEq, Repr

/-- Resolution of the target record consulted by `detect_drift`: the
account's nested targets when an account is given (no record when the
account itself is unknown), the flat targets otherwise. -/
def lookupTargetState (st : StateDoc) (target : String)
    (account : Option String) : Option TargetRecord :=
  match account with
  | some a =>
      match dictGet st.accounts a with
      | none => none
      | some acc => dictGet acc.targets target
  | none => dictGet st.targets target

/-- Embedding of `StateManager.detect_drift`: changed-or-new paths of the
current map, then removed paths of the stored map; a missing record means
every current path is returned. -/
def detect_drift (st : StateDoc) (target : String)
    (current_hashes : List (String × String)) (account : Option String) :
    List String :=
  match lookupTargetState st target account with
  | none => current_hashes.map Prod.fst
  | some ts =>
      (current_hashes.filter
          (fun p => dictGet ts.file_hashes p.1 ≠ some p.2)).map Prod.fst ++
        (ts.file_hashes.filter
          (fun q => ¬ dictMem current_hashes q.1)).map Prod.fst

/-- Stored plugin section consulted by `detect_plugin_drift`: the account's
nested plugins when an account is given (empty when the account is
unknown), the flat plugins otherwise. -/
def lookupStoredPlugins (st : StateDoc) (account : Option String) :
    List (String × PluginMeta) :=
  match account with
  | some a =>
      match dictGet st.accounts a with
      | none => []
      | some acc => acc.plugins
  | none => st.plugins

/-- Embedding of `StateManager.detect_plugin_drift`: one loop marks stored
plugins missing from the current map as removed, a second loop marks
current plugins as added, version-changed (checked first) or
count-changed. -/
def detect_plugin_drift (st : StateDoc)
    (current_plugins : List (String × PluginMeta)) (account : Option String) :
    List (String × String) :=
  let stored := lookupStoredPlugins st account
  let drift := stored.foldl
    (fun d q => if dictMem current_plugins q.1 then d else dictSet d q.1 "removed")
    []
  current_plugins.foldl
    (fun d p =>
      match dictGet stored p.1 with
      | none => dictSet d p.1 "added"
      | some m =>
          if p.2.version ≠ m.version then
            dictSet d p.1 ("version_changed: " ++ m.version ++ " -> " ++ p.2.version)
          else if p.2.mcp_count ≠ m.mcp_count then
            dictSet d p.1 ("mcp_count_changed: " ++ toString m.mcp_count ++
              " -> " ++ toString p.2.mcp_count)
          else d)
    drift

/-- Reason optionally assigned by the removed-plugins loop of
`detect_plugin_drift` for one stored plugin. -/
def driftRemovedVal (current : List (String × PluginMeta))
    (q : String × PluginMeta) : Option String :=
  if dictMem current q.1 then none else some "removed"

/-- Reason optionally assigned by the added-or-changed loop of
`detect_plugin_drift` for one current plugin. -/
def driftAddChangeVal (stored : List (String × PluginMeta))
    (p : String × PluginMeta) : Option String :=
  match dictGet stored p.1 with
  | none => some "added"
  | some m =>
      if p.2.version ≠ m.version then
        some ("version_changed: " ++ m.version ++ " -> " ++ p.2.version)
      else if p.2.mcp_count ≠ m.mcp_count then
        some ("mcp_count_changed: " ++ toString m.mcp_count ++
          " -> " ++ toString p.2.mcp_count)
      else none

/-! Source reader MCP discovery (src/source_reader.py,
`get_mcp_servers_with_scope`).

Server configurations are embedded as opaque JSON objects (string-keyed
association lists); plugin-provided configurations carry the
underscore-prefixed bookkeeping keys `_plugin_name` / `_plugin_version`
exactly as produced by `_get_plugin_mcp_servers`. -/

/-- Opaque MCP server configuration object. -/
abbrev MCPConfig := List (String × String)

/-- Scope/source metadata attached to a discovered server. -/
structure MCPMeta where
  scope : String
  source : String
  plugin_name : Option String := none
  plugin_version : Option String := none
deriving DecidableEq, Repr

/-- Scope-tagged MCP server entry. -/
structure ScopedEntry where
  config : MCPConfig
  metadata : MCPMeta
deriving DecidableEq, Repr

/-- Python dict comprehension dropping underscore-prefixed keys. -/
def stripUnderscoreKeys (config : MCPConfig) : MCPConfig :=
  config.filter (fun p => ¬ leadsL "_".data p.1.data)

/-- Entry built for a plugin-declared server: cleaned configuration plus
user-scope plugin metadata. -/
def pluginEntry (c : MCPConfig) : ScopedEntry :=
  { config := stripUnderscoreKeys c,
    metadata := { scope := "user", source := "plugin",
                  plugin_name := some ((dictGet c "_plugin_name").getD "unknown"),
                  plugin_version := some ((dictGet c "_plugin_version").getD "unknown") } }

/-- One file-based discovery layer: unconditionally assign every server of
the layer into the accumulator dict, tagged with the given scope. -/
def mcpLayerFile (tag : String) (layer : List (String × MCPConfig))
    (d : List (String × ScopedEntry)) : List (String × ScopedEntry) :=
  layer.foldl (fun d p => dictSet d p.1
    { config := p.2, metadata := { scope := tag, source := "file" } }) d

/-- The plugin discovery layer: assign only names not already present
(file-based user servers have priority). -/
def mcpLayerPlugin (layer : List (String × MCPConfig))
    (d : List (String × ScopedEntry)) : List (String × ScopedEntry) :=
  layer.foldl (fun d p =>
    if dictMem d p.1 then d else dictSet d p.1 (pluginEntry p.2)) d

/-- Embedding of `SourceReader.get_mcp_servers_with_scope`: user file
layer, then plugin layer (insert-if-absent), then project and local layers
(each unconditionally overwriting), each guarded by the scope filter and
project-directory presence. -/
def get_mcp_servers_with_scope (scope : String) (hasProject : Bool)
    (userMcps plugins projectMcps localMcps : List (String × MCPConfig)) :
    List (String × ScopedEntry) :=
  let s1 := if scope = "user" ∨ scope = "all" then
      mcpLayerFile "user" userMcps [] else []
  let s2 := if scope = "user" ∨ scope = "all" then
      mcpLayerPlugin plugins s1 else s1
  let s3 := if (scope = "project" ∨ scope = "all") ∧ hasProject then
      mcpLayerFile "project" projectMcps s2 else s2
  let s4 := if (scope = "project" ∨ scope = "all") ∧ hasProject then
      mcpLayerFile "local" localMcps s3 else s3
  s4

/-! Adapter contract (src/adapters/base.py).

An adapter's sync operation either returns a `SyncResult` or raises; a
raise is embedded as `Except.error` carrying `str(e)`.  Because the Lean
`sync_all` below is a total function into a plain result list, the batch
never propagates an exception. -/

/-- In-memory snapshot handed to `AdapterBase.sync_all` (key
`mcp_servers` already renamed to `mcp` by the orchestrator). -/
structure Snapshot where
  rules : List (String × String) := []
  skills : List (String × String) := []
  agents : List (String × String) := []
  commands : List (String × String) := []
  mcp : List (String × MCPConfig) := []
  mcp_scoped : List (String × ScopedEntry) := []
  settings : List (String × String) := []

/-- An adapter implementation: the six required operations plus the
optional scope-aware seventh (`none` means not overridden). -/
structure Adapter where
  target_name : String
  sync_rules : List (String × String) → Except String SyncResult
  sync_skills : List (String × String) → Except String SyncResult
  sync_agents : List (String × String) → Except String SyncResult
  sync_commands : List (String × String) → Except String SyncResult
  sync_mcp : List (String × MCPConfig) → Except String SyncResult
  sync_mcp_scoped : Option
    (List (String × ScopedEntry) → Except String SyncResult) := none
  sync_settings : List (String × String) → Except String SyncResult

/-- Dispatch of `sync_mcp_scoped`: an overriding adapter runs its own
implementation, otherwise the base default flattens each entry to its
`config` and delegates to `sync_mcp`. -/
def Adapter.runMcpScoped (a : Adapter)
    (sc : List (String × ScopedEntry)) : Except String SyncResult :=
  match a.sync_mcp_scoped with
  | some f => f sc
  | none => a.sync_mcp (sc.map (fun p => (p.1, p.2.config)))

/-- The try/except wrapper of each `sync_all` call: an exception becomes a
one-failure result tagged with the category and message. -/
def catchOp (cat : String) (r : Except String SyncResult) : SyncResult :=
  match r with
  | Except.ok res => res
  | Except.error e => { failed := 1, failed_files := [cat ++ ": " ++ e] }

/-- Embedding of `AdapterBase.sync_all`: all categories in fixed order,
each call isolated by `catchOp`; scoped MCP data, when present, routes to
`sync_mcp_scoped` instead of `sync_mcp`. -/
def Adapter.sync_all (a : Adapter) (source_data : Snapshot) :
    List (String × SyncResult) :=
  [("rules", catchOp "rules" (a.sync_rules source_data.rules)),
   ("skills", catchOp "skills" (a.sync_skills source_data.skills)),
   ("agents", catchOp "agents" (a.sync_agents source_data.agents)),
   ("commands", catchOp "commands" (a.sync_commands source_data.commands)),
   ("mcp", catchOp "mcp"
     (if source_data.mcp_scoped.isEmpty then a.sync_mcp source_data.mcp
      else a.runMcpScoped source_data.mcp_scoped)),
   ("settings", catchOp "settings" (a.sync_settings source_data.settings))]

/-- Concrete adapter for the C3 witness: `sync_mcp` raises, the other
operations succeed. -/
def sampleAdapter : Adapter :=
  { target_name := "codex",
    sync_rules := fun _ => Except.ok { synced := 1 },
    sync_skills := fun _ => Except.ok {},
    sync_agents := fun _ => Except.ok {},
    sync_commands := fun _ => Except.ok {},
    sync_mcp := fun _ => Except.error "boom",
    sync_settings := fun _ => Except.ok {} }

/-! Orchestrator (src/orchestrator.py) and the state updates it performs
(src/state_manager.py `record_sync` / `record_plugin_sync`).

Modeled state is the persisted state document; visible side effects are
adapter invocations and state-store writes, collected in a trace.
Conflict detection, symlink cleanup, the compatibility report and backup
retention GC read or touch nothing in the modeled state (and this version
of the source writes no target-file backups — the backup step is a TODO),
so they do not appear in the trace.  Wall-clock timestamps are passed as
`now`. -/

/-- Embedding of `StateManager.record_sync` on the state document. -/
def record_sync (st : StateDoc) (target scope : String)
    (file_hashes sync_methods : List (String × String))
    (synced skipped failed : Nat) (account : Option String) (now : String) :
    StateDoc :=
  let target_data : TargetRecord :=
    { last_sync := now,
      status := recordSyncStatus synced skipped failed,
      scope := scope,
      file_hashes := file_hashes,
      sync_method := sync_methods,
      items_synced := synced,
      items_skipped := skipped,
      items_failed := failed }
  let st1 :=
    match account with
    | some a =>
        let acc := (dictGet st.accounts a).getD { targets := [] }
        let acc1 := { acc with
                      targets := dictSet acc.targets target target_data,
                      last_sync := some now }
        { st with accounts := dictSet st.accounts a acc1 }
    | none => { st with targets := dictSet st.targets target target_data }
  { st1 with last_sync := some now }

/-- Embedding of `StateManager.record_plugin_sync`: REPLACES the plugins
section of the selected location, never merging. -/
def record_plugin_sync (st : StateDoc)
    (plugins_metadata : List (String × PluginMeta))
    (account : Option String) : StateDoc :=
  match account with
  | some a =>
      let acc := (dictGet st.accounts a).getD {}
      let acc1 := { acc with plugins := plugins_metadata }
      { st with accounts := dictSet st.accounts a acc1 }
  | none => { st with plugins := plugins_metadata }

/-- Loop body of `_extract_plugin_metadata` for one scoped server. -/
def extractStep (now : String) (plugins : List (String × PluginMeta))
    (p : String × ScopedEntry) : List (String × PluginMeta) :=
  if p.2.metadata.source ≠ "plugin" then plugins
  else
    let plugin_name := (p.2.metadata.plugin_name).getD "unknown"
    let plugin_version := (p.2.metadata.plugin_version).getD "unknown"
    let plugins1 := if dictMem plugins plugin_name then plugins
      else dictSet plugins plugin_name
        { version := plugin_version, mcp_count := 0,
          mcp_servers := [], last_sync := now }
    match dictGet plugins1 plugin_name with
    | some m => dictSet plugins1 plugin_name
        { m with mcp_count := m.mcp_count + 1,
                 mcp_servers := m.mcp_servers ++ [p.1] }
    | none => plugins1

/-- Embedding of `SyncOrchestrator._extract_plugin_metadata`: group the
plugin-sourced scoped servers by plugin name, counting servers. -/
def extract_plugin_metadata (mcp_scoped : List (String × ScopedEntry))
    (now : String) : List (String × PluginMeta) :=
  mcp_scoped.foldl (extractStep now) []

/-- Loop body of `_update_state` for one target's results: aggregate the
counters and `record_sync` them, skipping special underscore keys. -/
def updateStep (file_hashes : List (String × String)) (scope : String)
    (account : Option String) (now : String) (s : StateDoc)
    (tr : String × List (String × SyncResult)) : StateDoc :=
  if leadsL "_".data tr.1.data then s
  else
    record_sync s tr.1 scope file_hashes []
      (tr.2.foldl (fun n p => n + p.2.synced) 0)
      (tr.2.foldl (fun n p => n + p.2.skipped) 0)
      (tr.2.foldl (fun n p => n + p.2.failed) 0)
      account now

/-- Embedding of `SyncOrchestrator._update_state`: per-target `record_sync`
over the results, then `record_plugin_sync` only when plugin metadata was
extracted. -/
def updateState (st : StateDoc)
    (results : List (String × List (String × SyncResult)))
    (file_hashes : List (String × String)) (scope : String)
    (account : Option String) (mcp_scoped : List (String × ScopedEntry))
    (now : String) : StateDoc :=
  let st1 := results.foldl (updateStep file_hashes scope account now) st
  let plugins_metadata := extract_plugin_metadata mcp_scoped now
  if plugins_metadata.isEmpty then st1
  else record_plugin_sync st1 plugins_metadata account

/-- Observable side effects of one orchestrator run. -/
inductive Effect where
  | adapterCall (target : String)
  | stateWrite
deriving DecidableEq, Repr

/-- Outcome of `SyncOrchestrator.sync_all`: the blocked dict, a dry-run
preview, or the per-target result map. -/
inductive OrchResult where
  | blocked (reason warnings : String)
  | preview
  | completed (results : List (String × List (String × SyncResult)))
deriving DecidableEq, Repr

/-- Embedding of `SyncOrchestrator.sync_all`: the secret gate runs first
and, when it blocks, the run returns the blocked dict with the state
untouched and no effect; otherwise a dry run previews without effects, and
a real run invokes every registered adapter (an adapter that raises is
recorded as a single failed entry for that target) and then updates the
state store. -/
def orchestratorSyncAll (mcp_servers : List (String × ServerConfig))
    (mcp_scoped : List (String × ScopedEntry))
    (adapters : List (String × Except String (List (String × SyncResult))))
    (allow_secrets dry_run : Bool) (scope : String) (account : Option String)
    (file_hashes : List (String × String)) (now : String) (st : StateDoc) :
    OrchResult × StateDoc × List Effect :=
  let detections := scan_mcp_env mcp_servers
  if should_block detections allow_secrets then
    (OrchResult.blocked "secrets_detected" (format_warnings detections),
      st, [])
  else if dry_run then
    (OrchResult.preview, st, [])
  else
    let results := adapters.map (fun a => (a.1,
      match a.2 with
      | Except.ok rs => rs
      | Except.error e =>
          [("error", ({ failed := 1, failed_files := [e] } : SyncResult))]))
    (OrchResult.completed results,
      updateState st results file_hashes scope account mcp_scoped now,
      adapters.map (fun a => Effect.adapterCall a.1) ++ [Effect.stateWrite])

theorem dictGet_append {α : Type} (d₁ d₂ : List (String × α)) (k : String) :
    dictGet (d₁ ++ d₂) k =
      match dictGet d₁ k with
      | some v => some v
      | none => dictGet d₂ k := by
  induction d₁ with
  | nil => simp [dictGet]
  | cons p t ih =>
      by_cases h : p.1 = k <;> simp [dictGet, h, ih]

theorem dictGet_mapReplace {α : Type} (d : List (String × α)) (k : String)
    (v : α) (k' : String) :
    dictGet (d.map (fun p => if p.1 = k then (k, v) else p)) k' =
      if k' = k then (dictGet d k).map (fun _ => v) else dictGet d k' := by
  induction d with
  | nil => by_cases hk' : k' = k <;> simp [dictGet, hk']
  | cons p t ih =>
      by_cases hp : p.1 = k
      · by_cases hk' : k' = k
        · simp [dictGet, hp, hk']
        · have hne : ¬ (k = k') := fun h => hk' h.symm
          simp [dictGet, hp, hk', hne, ih]
      · by_cases hpk' : p.1 = k'
        · have hk' : ¬ (k' = k) := fun h => hp (h ▸ hpk')
          simp [dictGet, hp, hpk', hk']
        · simp [dictGet, hp, hpk', ih]

/-- Fundamental lookup law for Python-style assignment. -/
theorem dictGet_dictSet {α : Type} (d : List (String × α)) (k : String) (v : α)
    (k' : String) :
    dictGet (dictSet d k v) k' = if k' = k then some v else dictGet d k' := by
  unfold dictSet dictMem
  cases hmem : dictGet d k with
  | some w =>
      rw [if_pos (by simp [hmem]), dictGet_mapReplace]
      by_cases hk' : k' = k <;> simp [hk', hmem]
  | none =>
      rw [if_neg (by simp [hmem]), dictGet_append]
      by_cases hk' : k' = k
      · rw [hk', hmem]
        simp [dictGet]
      · cases h : dictGet d k' with
        | some w => simp [hk']
        | none =>
            simp [dictGet, hk']
            exact fun hkk => hk' hkk.symm

theorem findKey_eq_none {β : Type} (key : β → String) (k : String)
    (l : List β) (h : ∀ p ∈ l, key p ≠ k) : findKey key k l = none := by
  induction l with
  | nil => rfl
  | cons p t ih =>
      rw [findKey, if_neg (h p (List.mem_cons_self p t))]
      exact ih (fun q hq => h q (List.mem_cons_of_mem p hq))

/-- Lookup after a loop that conditionally assigns `key p ↦ v` for each
element, provided the iterated keys are distinct: the unique element with
the queried key decides the outcome. -/
theorem dictGet_foldl_condSet {α β : Type} (key : β → String)
    (val : β → Option α) (l : List β) (d₀ : List (String × α)) (k : String)
    (hnd : (l.map key).Nodup) :
    dictGet (l.foldl (fun d p =>
        match val p with
        | some v => dictSet d (key p) v
        | none => d) d₀) k =
      match findKey key k l with
      | some p =>
          match val p with
          | some v => some v
          | none => dictGet d₀ k
      | none => dictGet d₀ k := by
  induction l generalizing d₀ with
  | nil => simp [List.foldl, findKey]
  | cons p t ih =>
      rw [List.map_cons, List.nodup_cons] at hnd
      obtain ⟨hpn, htn⟩ := hnd
      rw [List.foldl_cons, ih _ htn]
      by_cases hk : key p = k
      · subst hk
        have hfind : findKey key (key p) t = none := by
          apply findKey_eq_none
          intro q hq hqk
          exact hpn (hqk ▸ List.mem_map_of_mem key hq)
        rw [hfind, findKey, if_pos rfl]
        cases hv : val p with
        | some v => simp [hv, dictGet_dictSet]
        | none => simp only [hv]
      · have hk2 : ¬ (k = key p) := fun h => hk h.symm
        rw [findKey, if_neg hk]
        cases hfind : findKey key k t with
        | some q =>
            simp only
            cases hv : val q with
            | some v => simp only
            | none =>
                cases hvp : val p with
                | some v =>
                    simp only [hvp, dictGet_dictSet, if_neg hk2]
                | none => simp only [hvp]
        | none =>
            simp only
            cases hvp : val p with
            | some v => simp only [hvp, dictGet_dictSet, if_neg hk2]
            | none => simp only [hvp]

/-- Restatement of `dictGet_foldl_condSet` through the named step
function, for syntactic rewriting. -/
theorem dictGet_foldl_condSetStep {α β : Type} (key : β → String)
    (val : β → Option α) (l : List β) (d₀ : List (String × α)) (k : String)
    (hnd : (l.map key).Nodup) :
    dictGet (l.foldl (condSetStep key val) d₀) k =
      match findKey key k l with
      | some p =>
          match val p with
          | some v => some v
          | none => dictGet d₀ k
      | none => dictGet d₀ k :=
  dictGet_foldl_condSet key val l d₀ k hnd

/-- Lookup after a loop that inserts `key p ↦ f p` only when the key is
absent: bindings already present win, otherwise the first iterated element
with the queried key wins. -/
theorem dictGet_foldl_insertAbsent {α β : Type} (key : β → String)
    (f : β → α) (l : List β) (d₀ : List (String × α)) (k : String) :
    dictGet (l.foldl (fun d p =>
        if dictMem d (key p) then d else dictSet d (key p) (f p)) d₀) k =
      match dictGet d₀ k with
      | some v => some v
      | none =>
          match findKey key k l with
          | some p => some (f p)
          | none => none := by
  induction l generalizing d₀ with
  | nil => cases h : dictGet d₀ k <;> simp [List.foldl, findKey, h]
  | cons p t ih =>
      rw [List.foldl_cons, ih]
      by_cases hk : key p = k
      · subst hk
        rw [findKey, if_pos rfl]
        cases h : dictGet d₀ (key p) with
        | some v =>
            have hmem : dictMem d₀ (key p) = true := by
              rw [dictMem, h]
              rfl
            rw [if_pos hmem, h]
        | none =>
            have hmem : dictMem d₀ (key p) = false := by
              rw [dictMem, h]
              rfl
            rw [hmem]
            simp only [Bool.false_eq_true, if_false]
            rw [dictGet_dictSet, if_pos rfl]
      · have hk2 : ¬ (k = key p) := fun h => hk h.symm
        rw [findKey, if_neg hk]
        cases hmem : dictMem d₀ (key p) with
        | true => simp
        | false => simp [dictGet_dictSet, hk2]

/-- Restatement of `dictGet_foldl_insertAbsent` through the named step
function, for syntactic rewriting. -/
theorem dictGet_foldl_insertAbsentStep {α β : Type} (key : β → String)
    (f : β → α) (l : List β) (d₀ : List (String × α)) (k : String) :
    dictGet (l.foldl (insertAbsentStep key f) d₀) k =
      match dictGet d₀ k with
      | some v => some v
      | none =>
          match findKey key k l with
          | some p => some (f p)
          | none => none :=
  dictGet_foldl_insertAbsent key f l d₀ k

/-! Supporting lemmas about the scanner. -/

theorem dict_value_unique {α : Type} (d : List (String × α))
    (hnd : keysNodup d) (k : String) (a b : α)
    (ha : (k, a) ∈ d) (hb : (k, b) ∈ d) : a = b := by
  induction d with
  | nil => cases ha
  | cons p t ih =>
      rw [keysNodup, List.map_cons, List.nodup_cons] at hnd
      obtain ⟨hpn, htn⟩ := hnd
      rcases List.mem_cons.mp ha with ha1 | ha1 <;>
        rcases List.mem_cons.mp hb with hb1 | hb1
      · cases ha1.trans hb1.symm
        rfl
      · exfalso
        apply hpn
        have hk : p.1 = k := by rw [← ha1]
        rw [hk]
        exact List.mem_map_of_mem Prod.fst hb1
      · exfalso
        apply hpn
        have hk : p.1 = k := by rw [← hb1]
        rw [hk]
        exact List.mem_map_of_mem Prod.fst ha1
      · exact ih htn ha1 hb1

/-- Characterization of the single-variable scan step. -/
theorem scanVar_some_iff (n v : String) (d : Detection) :
    scanVar n v = some d ↔
      safeName n = false ∧ matchedKeywords n ≠ [] ∧
      secretValuePattern v = true ∧
      d = { var_name := n,
            keywords_matched := matchedKeywords n,
            confidence := "medium",
            reason := "Contains keywords: " ++
              String.intercalate ", " (matchedKeywords n) } := by
  unfold scanVar
  cases hsafe : safeName n with
  | true =>
      simp [hsafe]
  | false =>
      cases hemp : (matchedKeywords n).isEmpty with
      | true =>
          have : matchedKeywords n = [] := List.isEmpty_iff.mp hemp
          simp [hemp, this]
      | false =>
          have hne : matchedKeywords n ≠ [] := by
            intro h
            rw [h] at hemp
            simp at hemp
          cases hpat : secretValuePattern v with
          | true => simp [hemp, hpat, hne, eq_comm]
          | false => simp [hemp, hpat]

/-- Only the verdict of the value pattern matters to the scan step, never
the value itself. -/
theorem scanVar_congr (n v₁ v₂ : String)
    (h : secretValuePattern v₁ = secretValuePattern v₂) :
    scanVar n v₁ = scanVar n v₂ := by
  unfold scanVar
  rw [h]

/-- C8: for every environment-variable map, `SecretDetector.scan` flags a
variable if and only if its upper-cased name contains at least one keyword
of SECRET_KEYWORDS and its value matches the 16-plus-character complexity
pattern, unless the name carries a whitelisted safe test/demo/example/mock
leading fragment, in which case it is never flagged. -/
theorem scan_flags_iff (env : List (String × String)) (hnd : keysNodup env)
    (n v : String) (hmem : (n, v) ∈ env) :
    (∃ d ∈ scan env, d.var_name = n) ↔
      safeName n = false ∧ matchedKeywords n ≠ [] ∧
      secretValuePattern v = true := by
  constructor
  · rintro ⟨d, hd, hvar⟩
    rw [scan] at hd
    obtain ⟨⟨pn, pv⟩, hp, hf⟩ := List.mem_filterMap.mp hd
    obtain ⟨h1, h2, h3, h4⟩ := (scanVar_some_iff pn pv d).mp hf
    have hn : pn = n := by
      rw [h4] at hvar
      exact hvar
    subst hn
    have hv : pv = v := dict_value_unique env hnd pn pv v hp hmem
    exact ⟨h1, h2, hv ▸ h3⟩
  · rintro ⟨h1, h2, h3⟩
    refine ⟨{ var_name := n,
              keywords_matched := matchedKeywords n,
              confidence := "medium",
              reason := "Contains keywords: " ++
                String.intercalate ", " (matchedKeywords n) }, ?_, rfl⟩
    rw [scan]
    exact List.mem_filterMap.mpr
      ⟨(n, v), hmem, (scanVar_some_iff n v _).mpr ⟨h1, h2, h3, rfl⟩⟩

/-- Witness for C8 at a concrete environment holding one secret-looking
variable. -/
theorem scan_flags_iff_witness :
    keysNodup [("MY_API_KEY", "ABCDEFGH12345678")] ∧
    ("MY_API_KEY", "ABCDEFGH12345678") ∈ [("MY_API_KEY", "ABCDEFGH12345678")] ∧
    ((∃ d ∈ scan [("MY_API_KEY", "ABCDEFGH12345678")],
        d.var_name = "MY_API_KEY") ↔
      safeName "MY_API_KEY" = false ∧ matchedKeywords "MY_API_KEY" ≠ [] ∧
      secretValuePattern "ABCDEFGH12345678" = true) :=
  ⟨by decide, by decide,
    scan_flags_iff [("MY_API_KEY", "ABCDEFGH12345678")] (by decide)
      "MY_API_KEY" "ABCDEFGH12345678" (by decide)⟩

/-- C9: the scan output never carries a variable's value: every detection
consists of the variable name, the keywords matched in that name, the
constant confidence and a reason built from the keywords only, and two
environments differing only in one variable's value (both values matching
the complexity pattern) produce identical detection lists. -/
theorem scan_never_carries_value (pre post : List (String × String))
    (n v₁ v₂ : String)
    (h₁ : secretValuePattern v₁ = true) (h₂ : secretValuePattern v₂ = true) :
    scan (pre ++ (n, v₁) :: post) = scan (pre ++ (n, v₂) :: post) ∧
    ∀ d ∈ scan (pre ++ (n, v₁) :: post),
      d.keywords_matched = matchedKeywords d.var_name ∧
      d.confidence = "medium" ∧
      d.reason = "Contains keywords: " ++
        String.intercalate ", " (matchedKeywords d.var_name) := by
  constructor
  · have hc : scanVar n v₁ = scanVar n v₂ := scanVar_congr n v₁ v₂ (h₁.trans h₂.symm)
    rw [scan, scan, List.filterMap_append, List.filterMap_append,
      List.filterMap_cons, List.filterMap_cons]
    simp only [hc]
  · intro d hd
    rw [scan] at hd
    obtain ⟨⟨pn, pv⟩, hp, hf⟩ := List.mem_filterMap.mp hd
    obtain ⟨h1, h2, h3, h4⟩ := (scanVar_some_iff pn pv d).mp hf
    subst h4
    exact ⟨rfl, rfl, rfl⟩

/-- Witness for C9 at two concrete environments that differ only in the
value of the flagged variable. -/
theorem scan_never_carries_value_witness :
    secretValuePattern "ABCDEFGH12345678" = true ∧
    secretValuePattern "ZYXWVUTS87654321" = true ∧
    scan [("MY_TOKEN", "ABCDEFGH12345678")] =
      scan [("MY_TOKEN", "ZYXWVUTS87654321")] :=
  ⟨by decide, by decide,
    (scan_never_carries_value [] [] "MY_TOKEN" "ABCDEFGH12345678"
      "ZYXWVUTS87654321" (by decide) (by decide)).1⟩

/-- C7 counterexample: `merge` is not commutative, because the file lists
concatenate in argument order; two results holding distinct synced-file
paths merge to different values in the two orders. -/
theorem merge_comm_counterexample :
    SyncResult.merge { synced_files := ["a"] } { synced_files := ["b"] } ≠
      SyncResult.merge { synced_files := ["b"] } { synced_files := ["a"] } := by
  decide

/-- C7 (amended): `merge` is associative, and commutative on the four
counters; the three file lists of the two merge orders agree up to
permutation (concatenation order differs). -/
theorem merge_assoc_and_counter_comm (a b c : SyncResult) :
    (a.merge b).merge c = a.merge (b.merge c) ∧
    (a.merge b).synced = (b.merge a).synced ∧
    (a.merge b).skipped = (b.merge a).skipped ∧
    (a.merge b).failed = (b.merge a).failed ∧
    (a.merge b).adapted = (b.merge a).adapted ∧
    (a.merge b).synced_files.Perm (b.merge a).synced_files ∧
    (a.merge b).skipped_files.Perm (b.merge a).skipped_files ∧
    (a.merge b).failed_files.Perm (b.merge a).failed_files := by
  refine ⟨?_, ?_, ?_, ?_, ?_, ?_, ?_, ?_⟩
  · simp [SyncResult.merge, Nat.add_assoc, List.append_assoc]
  · simp [SyncResult.merge, Nat.add_comm]
  · simp [SyncResult.merge, Nat.add_comm]
  · simp [SyncResult.merge, Nat.add_comm]
  · simp [SyncResult.merge, Nat.add_comm]
  · exact List.perm_append_comm
  · exact List.perm_append_comm
  · exact List.perm_append_comm

/-- C6 counterexample: with all three counters zero, `record_sync` persists
"success" while the §3 status function (`SyncResult.status`) yields
"nothing", so the two computations differ. -/
theorem record_sync_status_counterexample :
    recordSyncStatus 0 0 0 = "success" ∧
    statusOfCounters 0 0 0 = "nothing" ∧
    recordSyncStatus 0 0 0 ≠ statusOfCounters 0 0 0 := by
  refine ⟨rfl, rfl, ?_⟩
  decide

/-- C6 (amended): whenever at least one counter is positive, the status
`record_sync` persists equals the §3 status function computed by
`SyncResult.status`; only the all-zero case diverges ("success" versus
"nothing"). -/
theorem record_sync_status_agrees (s k f : Nat) (h : s + k + f ≠ 0) :
    recordSyncStatus s k f = statusOfCounters s k f := by
  unfold recordSyncStatus statusOfCounters SyncResult.status SyncResult.total
  simp only
  split_ifs <;> rfl

/-- Witness for the amended C6 theorem at a concrete counter triple. -/
theorem record_sync_status_agrees_witness :
    (1 + 0 + 1 ≠ 0) ∧ recordSyncStatus 1 0 1 = statusOfCounters 1 0 1 :=
  ⟨by decide, record_sync_status_agrees 1 0 1 (by decide)⟩

/-! More association-list lemmas used for the state manager. -/

theorem dictGet_some_mem {α : Type} (l : List (String × α)) (k : String)
    (v : α) (h : dictGet l k = some v) : (k, v) ∈ l := by
  induction l with
  | nil => cases h
  | cons p t ih =>
      rw [dictGet] at h
      by_cases hk : p.1 = k
      · rw [if_pos hk] at h
        cases p with
        | mk pk pv =>
            cases h
            cases hk
            exact List.mem_cons_self _ _
      · rw [if_neg hk] at h
        exact List.mem_cons_of_mem p (ih h)

theorem dictGet_eq_none_iff {α : Type} (l : List (String × α)) (k : String) :
    dictGet l k = none ↔ k ∉ l.map Prod.fst := by
  induction l with
  | nil => simp [dictGet]
  | cons p t ih =>
      rw [List.map_cons]
      by_cases hk : p.1 = k
      · simp [dictGet, hk]
      · rw [dictGet, if_neg hk, ih]
        constructor
        · intro h hmem
          rcases List.mem_cons.mp hmem with h1 | h1
          · exact hk h1.symm
          · exact h h1
        · intro h hmem
          exact h (List.mem_cons_of_mem _ hmem)

theorem mem_dictGet_of_nodup {α : Type} (l : List (String × α))
    (hnd : keysNodup l) (k : String) (v : α) (h : (k, v) ∈ l) :
    dictGet l k = some v := by
  cases hget : dictGet l k with
  | none =>
      exfalso
      exact (dictGet_eq_none_iff l k).mp hget
        (List.mem_map_of_mem Prod.fst h)
  | some w =>
      have := dict_value_unique l hnd k w v (dictGet_some_mem l k w hget) h
      rw [this]

theorem keys_dictSet {α : Type} (d : List (String × α)) (k : String) (v : α) :
    (dictSet d k v).map Prod.fst =
      if dictMem d k then d.map Prod.fst else d.map Prod.fst ++ [k] := by
  unfold dictSet
  by_cases hmem : dictMem d k = true
  · rw [if_pos hmem, if_pos hmem, List.map_map]
    apply List.map_congr_left
    intro p _
    by_cases hk : p.1 = k <;> simp [hk]
  · rw [if_neg hmem, if_neg hmem, List.map_append]
    rfl

theorem keysNodup_dictSet {α : Type} (d : List (String × α)) (k : String)
    (v : α) (hnd : keysNodup d) : keysNodup (dictSet d k v) := by
  rw [keysNodup, keys_dictSet]
  by_cases hmem : dictMem d k = true
  · rw [if_pos hmem]
    exact hnd
  · rw [if_neg hmem]
    have hk : k ∉ d.map Prod.fst := by
      apply (dictGet_eq_none_iff d k).mp
      rw [dictMem] at hmem
      cases h : dictGet d k with
      | none => rfl
      | some w =>
          exfalso
          apply hmem
          rw [h]
          rfl
    rw [List.nodup_append]
    refine ⟨hnd, List.nodup_singleton k, ?_⟩
    intro a ha hb
    rw [List.mem_singleton] at hb
    subst hb
    exact hk ha

theorem findKey_fst_eq {α : Type} (l : List (String × α)) (k : String) :
    findKey Prod.fst k l =
      match dictGet l k with
      | some v => some (k, v)
      | none => none := by
  induction l with
  | nil => simp [findKey, dictGet]
  | cons p t ih =>
      cases p with
      | mk pk pv =>
          by_cases hk : pk = k
          · subst hk
            simp [findKey, dictGet]
          · simp [findKey, dictGet, hk, ih]

/-- C5: `detect_drift` returns exactly the added, changed and removed paths
relative to the stored baseline, and every current path when no prior state
exists for the target or account. -/
theorem detect_drift_spec (st : StateDoc) (target : String)
    (current : List (String × String)) (account : Option String)
    (hc : keysNodup current) :
    (lookupTargetState st target account = none →
      detect_drift st target current account = current.map Prod.fst) ∧
    (∀ ts, lookupTargetState st target account = some ts →
      keysNodup ts.file_hashes →
      ∀ p, p ∈ detect_drift st target current account ↔
        ((dictGet current p ≠ none ∧ dictGet ts.file_hashes p = none) ∨
         (∃ cv sv, dictGet current p = some cv ∧
            dictGet ts.file_hashes p = some sv ∧ sv ≠ cv) ∨
         (dictGet ts.file_hashes p ≠ none ∧ dictGet current p = none))) := by
  constructor
  · intro h
    unfold detect_drift
    rw [h]
  · intro ts hts hs p
    have hdef : detect_drift st target current account =
        (current.filter
            (fun q => dictGet ts.file_hashes q.1 ≠ some q.2)).map Prod.fst ++
          (ts.file_hashes.filter
            (fun q => ¬ dictMem current q.1)).map Prod.fst := by
      unfold detect_drift
      rw [hts]
    rw [hdef, List.mem_append]
    constructor
    · rintro (h | h)
      · rw [List.mem_map] at h
        obtain ⟨⟨qk, qv⟩, hq, hqp⟩ := h
        rw [List.mem_filter] at hq
        obtain ⟨hqmem, hqcond⟩ := hq
        rw [decide_eq_true_eq] at hqcond
        cases hqp
        have hcur : dictGet current qk = some qv :=
          mem_dictGet_of_nodup current hc qk qv hqmem
        cases hsv : dictGet ts.file_hashes qk with
        | none =>
            left
            rw [hcur]
            exact ⟨by simp, rfl⟩
        | some sv =>
            right
            left
            refine ⟨qv, sv, hcur, rfl, ?_⟩
            intro he
            apply hqcond
            rw [hsv, he]
      · rw [List.mem_map] at h
        obtain ⟨⟨qk, qv⟩, hq, hqp⟩ := h
        rw [List.mem_filter] at hq
        obtain ⟨hqmem, hqcond⟩ := hq
        rw [decide_eq_true_eq] at hqcond
        cases hqp
        have hnone : dictGet current qk = none := by
          rw [dictMem] at hqcond
          cases h : dictGet current qk with
          | none => rfl
          | some w =>
              exfalso
              apply hqcond
              rw [h]
              rfl
        right
        right
        refine ⟨?_, hnone⟩
        rw [mem_dictGet_of_nodup ts.file_hashes hs qk qv hqmem]
        simp
    · rintro (⟨h1, h2⟩ | ⟨cv, sv, h1, h2, h3⟩ | ⟨h1, h2⟩)
      · left
        obtain ⟨cv, hcv⟩ := Option.ne_none_iff_exists.mp h1
        rw [List.mem_map]
        refine ⟨(p, cv), ?_, rfl⟩
        rw [List.mem_filter]
        refine ⟨dictGet_some_mem current p cv hcv.symm, ?_⟩
        rw [decide_eq_true_eq, h2]
        simp
      · left
        rw [List.mem_map]
        refine ⟨(p, cv), ?_, rfl⟩
        rw [List.mem_filter]
        refine ⟨dictGet_some_mem current p cv h1, ?_⟩
        rw [decide_eq_true_eq, h2]
        simp
        intro he
        exact h3 he
      · right
        obtain ⟨sv, hsv⟩ := Option.ne_none_iff_exists.mp h1
        rw [List.mem_map]
        refine ⟨(p, sv), ?_, rfl⟩
        rw [List.mem_filter]
        refine ⟨dictGet_some_mem ts.file_hashes p sv hsv.symm, ?_⟩
        rw [decide_eq_true_eq, dictMem, h2]
        simp

/-- Witness for C5 at a concrete state with one changed, one added and one
removed path. -/
theorem detect_drift_spec_witness :
    (lookupTargetState
        { targets := [("codex", { file_hashes := [("/a", "h1"), ("/b", "h2")] })] }
        "codex" none =
      some { file_hashes := [("/a", "h1"), ("/b", "h2")] }) ∧
    ("/b" ∈ detect_drift
        { targets := [("codex", { file_hashes := [("/a", "h1"), ("/b", "h2")] })] }
        "codex" [("/a", "h1X"), ("/c", "h3")] none ↔
      ((dictGet [("/a", "h1X"), ("/c", "h3")] "/b" ≠ none ∧
          dictGet [("/a", "h1"), ("/b", "h2")] "/b" = none) ∨
       (∃ cv sv, dictGet [("/a", "h1X"), ("/c", "h3")] "/b" = some cv ∧
          dictGet [("/a", "h1"), ("/b", "h2")] "/b" = some sv ∧ sv ≠ cv) ∨
       (dictGet [("/a", "h1"), ("/b", "h2")] "/b" ≠ none ∧
          dictGet [("/a", "h1X"), ("/c", "h3")] "/b" = none))) :=
  ⟨by decide,
    (detect_drift_spec
        { targets := [("codex", { file_hashes := [("/a", "h1"), ("/b", "h2")] })] }
        "codex" [("/a", "h1X"), ("/c", "h3")] none (by decide)).2
      { file_hashes := [("/a", "h1"), ("/b", "h2")] } (by decide) (by decide) "/b"⟩

theorem keysNodup_foldl {α β : Type} (l : List β)
    (step : List (String × α) → β → List (String × α))
    (hstep : ∀ d p, keysNodup d → keysNodup (step d p))
    (d₀ : List (String × α)) (h₀ : keysNodup d₀) :
    keysNodup (l.foldl step d₀) := by
  induction l generalizing d₀ with
  | nil => exact h₀
  | cons p t ih => exact ih _ (hstep d₀ p h₀)

/-- C4: `detect_plugin_drift` assigns each plugin name at most one drift
reason (the returned dict has distinct keys), and the reason is removed /
added / version_changed / mcp_count_changed exactly as the stored and
current metadata dictate, with a version difference taking priority over a
count difference. -/
theorem detect_plugin_drift_spec (st : StateDoc)
    (current : List (String × PluginMeta)) (account : Option String)
    (hs : keysNodup (lookupStoredPlugins st account))
    (hc : keysNodup current) :
    keysNodup (detect_plugin_drift st current account) ∧
    ∀ name, dictGet (detect_plugin_drift st current account) name =
      match dictGet (lookupStoredPlugins st account) name,
            dictGet current name with
      | some _, none => some "removed"
      | none, some _ => some "added"
      | none, none => none
      | some m, some c =>
          if c.version ≠ m.version then
            some ("version_changed: " ++ m.version ++ " -> " ++ c.version)
          else if c.mcp_count ≠ m.mcp_count then
            some ("mcp_count_changed: " ++ toString m.mcp_count ++
              " -> " ++ toString c.mcp_count)
          else none := by
  constructor
  · unfold detect_plugin_drift
    simp only
    apply keysNodup_foldl
    · intro d p hd
      cases hm : dictGet (lookupStoredPlugins st account) p.1 with
      | none => exact keysNodup_dictSet _ _ _ hd
      | some m =>
          simp only
          by_cases h1 : p.2.version ≠ m.version
          · rw [if_pos h1]
            exact keysNodup_dictSet _ _ _ hd
          · rw [if_neg h1]
            by_cases h2 : p.2.mcp_count ≠ m.mcp_count
            · rw [if_pos h2]
              exact keysNodup_dictSet _ _ _ hd
            · rw [if_neg h2]
              exact hd
    · apply keysNodup_foldl
      · intro d q hd
        by_cases h : dictMem current q.1 = true
        · rw [if_pos h]
          exact hd
        · rw [if_neg h]
          exact keysNodup_dictSet _ _ _ hd
      · simp [keysNodup]
  · intro name
    unfold detect_plugin_drift
    simp only
    have he1 : (fun (d : List (String × String)) (q : String × PluginMeta) =>
          if dictMem current q.1 then d else dictSet d q.1 "removed") =
        condSetStep Prod.fst (driftRemovedVal current) := by
      funext d q
      unfold condSetStep driftRemovedVal
      by_cases h : dictMem current q.1 = true <;> simp [h]
    have he2 : (fun (d : List (String × String)) (p : String × PluginMeta) =>
          match dictGet (lookupStoredPlugins st account) p.1 with
          | none => dictSet d p.1 "added"
          | some m =>
              if p.2.version ≠ m.version then
                dictSet d p.1 ("version_changed: " ++ m.version ++ " -> " ++
                  p.2.version)
              else if p.2.mcp_count ≠ m.mcp_count then
                dictSet d p.1 ("mcp_count_changed: " ++ toString m.mcp_count ++
                  " -> " ++ toString p.2.mcp_count)
              else d) =
        condSetStep Prod.fst
          (driftAddChangeVal (lookupStoredPlugins st account)) := by
      funext d p
      unfold condSetStep driftAddChangeVal
      cases hm : dictGet (lookupStoredPlugins st account) p.1 with
      | none => rfl
      | some m =>
          simp only
          by_cases h1 : p.2.version ≠ m.version
          · simp [h1]
          · by_cases h2 : p.2.mcp_count ≠ m.mcp_count <;> simp [h1, h2]
    rw [he1, he2]
    rw [dictGet_foldl_condSetStep Prod.fst
      (driftAddChangeVal (lookupStoredPlugins st account)) current _ name hc]
    rw [dictGet_foldl_condSetStep Prod.fst (driftRemovedVal current)
      (lookupStoredPlugins st account) _ name hs]
    rw [findKey_fst_eq, findKey_fst_eq]
    cases hsn : dictGet (lookupStoredPlugins st account) name with
    | none =>
        cases hcn : dictGet current name with
        | none => simp [dictGet]
        | some c => simp [dictGet, driftAddChangeVal, hsn]
    | some m =>
        cases hcn : dictGet current name with
        | none => simp [dictGet, driftRemovedVal, dictMem, hcn]
        | some c =>
            simp [dictGet, driftAddChangeVal, hsn]
            split_ifs <;> simp [driftRemovedVal, dictMem, hcn]

/-- Witness for C4 at a concrete pair of plugin maps in which one plugin
changed both version and MCP count: only version_changed is reported. -/
theorem detect_plugin_drift_spec_witness :
    dictGet (detect_plugin_drift
        { plugins := [("a", { version := "1", mcp_count := 1 }),
                      ("b", { version := "1", mcp_count := 1 })] }
        [("b", { version := "2", mcp_count := 5 }),
         ("c", { version := "1", mcp_count := 0 })] none) "b" =
      some "version_changed: 1 -> 2" := by
  have h := (detect_plugin_drift_spec
      { plugins := [("a", { version := "1", mcp_count := 1 }),
                    ("b", { version := "1", mcp_count := 1 })] }
      [("b", { version := "2", mcp_count := 5 }),
       ("c", { version := "1", mcp_count := 0 })] none
      (by decide) (by decide)).2 "b"
  rw [h]
  decide

theorem dictGet_mcpLayerFile (tag : String) (layer : List (String × MCPConfig))
    (d : List (String × ScopedEntry)) (k : String) (hnd : keysNodup layer) :
    dictGet (mcpLayerFile tag layer d) k =
      match dictGet layer k with
      | some c =>
          some { config := c, metadata := { scope := tag, source := "file" } }
      | none => dictGet d k := by
  have he : (fun (d : List (String × ScopedEntry)) (p : String × MCPConfig) =>
        dictSet d p.1
          { config := p.2,
            metadata := { scope := tag, source := "file" } }) =
      condSetStep Prod.fst (fun p => some
        { config := p.2, metadata := { scope := tag, source := "file" } }) := by
    funext d p
    rfl
  rw [mcpLayerFile, he,
    dictGet_foldl_condSetStep Prod.fst _ layer d k hnd, findKey_fst_eq]
  cases h : dictGet layer k <;> simp

theorem dictGet_mcpLayerPlugin (layer : List (String × MCPConfig))
    (d : List (String × ScopedEntry)) (k : String) :
    dictGet (mcpLayerPlugin layer d) k =
      match dictGet d k with
      | some v => some v
      | none =>
          match dictGet layer k with
          | some c => some (pluginEntry c)
          | none => none := by
  have he : (fun (d : List (String × ScopedEntry)) (p : String × MCPConfig) =>
        if dictMem d p.1 then d else dictSet d p.1 (pluginEntry p.2)) =
      insertAbsentStep Prod.fst (fun p => pluginEntry p.2) := by
    funext d p
    rfl
  rw [mcpLayerPlugin, he,
    dictGet_foldl_insertAbsentStep Prod.fst _ layer d k, findKey_fst_eq]
  cases h1 : dictGet d k <;> cases h2 : dictGet layer k <;> simp

/-- C2: with all layers active, the entry returned for every server name is
the one from the highest-precedence layer holding that name — local over
project over user — independently of order inside each layer (layer keys
are unique); plugin-declared servers are tagged user scope / plugin source
and are used only when no file-based user server of the same name exists. -/
theorem get_mcp_servers_with_scope_precedence
    (userMcps plugins projectMcps localMcps : List (String × MCPConfig))
    (hu : keysNodup userMcps) (_hpl : keysNodup plugins)
    (hp : keysNodup projectMcps) (hl : keysNodup localMcps) (name : String) :
    dictGet (get_mcp_servers_with_scope "all" true
        userMcps plugins projectMcps localMcps) name =
      match dictGet localMcps name with
      | some c =>
          some { config := c, metadata := { scope := "local", source := "file" } }
      | none =>
          match dictGet projectMcps name with
          | some c =>
              some { config := c,
                     metadata := { scope := "project", source := "file" } }
          | none =>
              match dictGet userMcps name with
              | some c =>
                  some { config := c,
                         metadata := { scope := "user", source := "file" } }
              | none =>
                  match dictGet plugins name with
                  | some c => some (pluginEntry c)
                  | none => none := by
  unfold get_mcp_servers_with_scope
  simp only [or_true, and_true, ite_true]
  rw [dictGet_mcpLayerFile "local" localMcps _ name hl]
  cases hln : dictGet localMcps name with
  | some c => simp
  | none =>
      simp only
      rw [dictGet_mcpLayerFile "project" projectMcps _ name hp]
      cases hpn : dictGet projectMcps name with
      | some c => simp
      | none =>
          simp only
          rw [dictGet_mcpLayerPlugin plugins _ name]
          rw [dictGet_mcpLayerFile "user" userMcps [] name hu]
          cases hun : dictGet userMcps name with
          | some c => simp
          | none => simp [dictGet]

/-- Witness for C2 at concrete layers in which one name appears in every
layer, one only as a plugin, and one as both a user file and a plugin. -/
theorem get_mcp_servers_with_scope_precedence_witness :
    dictGet (get_mcp_servers_with_scope "all" true
        [("s", [("command", "u")]), ("dup", [("command", "uf")])]
        [("s", [("command", "pl"), ("_plugin_name", "P")]),
         ("dup", [("command", "pl2")]),
         ("only", [("command", "pl3"), ("_plugin_name", "Q")])]
        [("s", [("command", "pr")])]
        [("s", [("command", "lo")])]) "s" =
      some { config := [("command", "lo")],
             metadata := { scope := "local", source := "file" } } := by
  have h := get_mcp_servers_with_scope_precedence
      [("s", [("command", "u")]), ("dup", [("command", "uf")])]
      [("s", [("command", "pl"), ("_plugin_name", "P")]),
       ("dup", [("command", "pl2")]),
       ("only", [("command", "pl3"), ("_plugin_name", "Q")])]
      [("s", [("command", "pr")])]
      [("s", [("command", "lo")])]
      (by decide) (by decide) (by decide) (by decide) "s"
  rw [h]
  decide

/-- C3: `sync_all` returns one entry per configuration category in a fixed
order; a category whose operation returns normally contributes its result,
one whose operation raises contributes a failed=1 result carrying the
category-tagged message, independently of the other categories; scoped MCP
data routes the mcp category through `sync_mcp_scoped` dispatch.  The
embedding is a total function, so no exception escapes the batch. -/
theorem adapter_sync_all_spec (a : Adapter) (s : Snapshot) :
    ((a.sync_all s).map Prod.fst =
      ["rules", "skills", "agents", "commands", "mcp", "settings"]) ∧
    (∀ r, a.sync_rules s.rules = Except.ok r →
      dictGet (a.sync_all s) "rules" = some r) ∧
    (∀ e, a.sync_rules s.rules = Except.error e →
      dictGet (a.sync_all s) "rules" =
        some { failed := 1, failed_files := ["rules: " ++ e] }) ∧
    (∀ r, a.sync_skills s.skills = Except.ok r →
      dictGet (a.sync_all s) "skills" = some r) ∧
    (∀ e, a.sync_skills s.skills = Except.error e →
      dictGet (a.sync_all s) "skills" =
        some { failed := 1, failed_files := ["skills: " ++ e] }) ∧
    (∀ r, a.sync_agents s.agents = Except.ok r →
      dictGet (a.sync_all s) "agents" = some r) ∧
    (∀ e, a.sync_agents s.agents = Except.error e →
      dictGet (a.sync_all s) "agents" =
        some { failed := 1, failed_files := ["agents: " ++ e] }) ∧
    (∀ r, a.sync_commands s.commands = Except.ok r →
      dictGet (a.sync_all s) "commands" = some r) ∧
    (∀ e, a.sync_commands s.commands = Except.error e →
      dictGet (a.sync_all s) "commands" =
        some { failed := 1, failed_files := ["commands: " ++ e] }) ∧
    (∀ r, a.sync_settings s.settings = Except.ok r →
      dictGet (a.sync_all s) "settings" = some r) ∧
    (∀ e, a.sync_settings s.settings = Except.error e →
      dictGet (a.sync_all s) "settings" =
        some { failed := 1, failed_files := ["settings: " ++ e] }) ∧
    (s.mcp_scoped = [] → ∀ r, a.sync_mcp s.mcp = Except.ok r →
      dictGet (a.sync_all s) "mcp" = some r) ∧
    (s.mcp_scoped = [] → ∀ e, a.sync_mcp s.mcp = Except.error e →
      dictGet (a.sync_all s) "mcp" =
        some { failed := 1, failed_files := ["mcp: " ++ e] }) ∧
    (s.mcp_scoped ≠ [] → ∀ r, a.runMcpScoped s.mcp_scoped = Except.ok r →
      dictGet (a.sync_all s) "mcp" = some r) ∧
    (s.mcp_scoped ≠ [] → ∀ e, a.runMcpScoped s.mcp_scoped = Except.error e →
      dictGet (a.sync_all s) "mcp" =
        some { failed := 1, failed_files := ["mcp: " ++ e] }) := by
  refine ⟨rfl, ?_, ?_, ?_, ?_, ?_, ?_, ?_, ?_, ?_, ?_, ?_, ?_, ?_, ?_⟩
  · intro r h
    simp [Adapter.sync_all, dictGet, catchOp, h]
  · intro e h
    simp [Adapter.sync_all, dictGet, catchOp, h]
  · intro r h
    simp [Adapter.sync_all, dictGet, catchOp, h]
  · intro e h
    simp [Adapter.sync_all, dictGet, catchOp, h]
  · intro r h
    simp [Adapter.sync_all, dictGet, catchOp, h]
  · intro e h
    simp [Adapter.sync_all, dictGet, catchOp, h]
  · intro r h
    simp [Adapter.sync_all, dictGet, catchOp, h]
  · intro e h
    simp [Adapter.sync_all, dictGet, catchOp, h]
  · intro r h
    simp [Adapter.sync_all, dictGet, catchOp, h]
  · intro e h
    simp [Adapter.sync_all, dictGet, catchOp, h]
  · intro hsc r h
    simp [Adapter.sync_all, dictGet, catchOp, h, hsc]
  · intro hsc e h
    simp [Adapter.sync_all, dictGet, catchOp, h, hsc]
  · intro hsc r h
    simp [Adapter.sync_all, dictGet, catchOp, h,
      List.isEmpty_iff, hsc]
  · intro hsc e h
    simp [Adapter.sync_all, dictGet, catchOp, h,
      List.isEmpty_iff, hsc]

/-- Witness for C3: with `sync_mcp` raising and the other operations
succeeding, the mcp entry is the tagged one-failure result and the rules
entry is the ordinary result. -/
theorem adapter_sync_all_spec_witness :
    dictGet (Adapter.sync_all sampleAdapter {}) "mcp" =
      some { failed := 1, failed_files := ["mcp: boom"] } ∧
    dictGet (Adapter.sync_all sampleAdapter {}) "rules" =
      some { synced := 1 } := by
  obtain ⟨hk, hrok, hrerr, hsok, hserr, haok, haerr, hcok, hcerr,
    hstok, hsterr, hmok, hmerr, hmsok, hmserr⟩ :=
    adapter_sync_all_spec sampleAdapter {}
  exact ⟨hmerr rfl "boom" rfl, hrok { synced := 1 } rfl⟩

/-- C1: whenever the MCP environment variables of the snapshot produce at
least one secret detection and the allow-secrets flag is absent, the run
returns the blocked dict with the structured reason, performs no adapter
invocation, no backup write and no state write (the effect trace is
empty), and leaves the persisted state document unchanged — for every
dry-run setting, adapter list and starting state. -/
theorem orchestrator_blocks_on_secrets
    (mcp_servers : List (String × ServerConfig))
    (mcp_scoped : List (String × ScopedEntry))
    (adapters : List (String × Except String (List (String × SyncResult))))
    (dry_run : Bool) (scope : String) (account : Option String)
    (file_hashes : List (String × String)) (now : String) (st : StateDoc)
    (hdet : scan_mcp_env mcp_servers ≠ []) :
    orchestratorSyncAll mcp_servers mcp_scoped adapters false dry_run scope
        account file_hashes now st =
      (OrchResult.blocked "secrets_detected"
          (format_warnings (scan_mcp_env mcp_servers)), st, []) := by
  have hblock : should_block (scan_mcp_env mcp_servers) false = true := by
    unfold should_block
    cases hd : scan_mcp_env mcp_servers with
    | nil => exact absurd hd hdet
    | cons d ds => simp
  unfold orchestratorSyncAll
  rw [if_pos hblock]

/-- Witness for C1 at a concrete snapshot holding one secret-looking MCP
environment variable, with one registered adapter and a nonempty starting
state. -/
theorem orchestrator_blocks_on_secrets_witness :
    scan_mcp_env [("api-server",
        { env := [("MY_API_KEY", "ABCDEFGH12345678")] })] ≠ [] ∧
    orchestratorSyncAll
        [("api-server", { env := [("MY_API_KEY", "ABCDEFGH12345678")] })]
        [] [("codex", Except.ok [])] false false "all" none [] "t0"
        { plugins := [("old", {})] } =
      (OrchResult.blocked "secrets_detected"
          (format_warnings (scan_mcp_env
            [("api-server", { env := [("MY_API_KEY", "ABCDEFGH12345678")] })])),
        { plugins := [("old", {})] }, []) :=
  ⟨by decide,
    orchestrator_blocks_on_secrets
      [("api-server", { env := [("MY_API_KEY", "ABCDEFGH12345678")] })]
      [] [("codex", Except.ok [])] false "all" none [] "t0"
      { plugins := [("old", {})] } (by decide)⟩

/-! Supporting lemmas for the plugin-section frame property (C10). -/

theorem dictSet_ne_nil {α : Type} (d : List (String × α)) (k : String)
    (v : α) : dictSet d k v ≠ [] := by
  unfold dictSet
  by_cases h : dictMem d k = true
  · rw [if_pos h]
    intro hmap
    have hd : d = [] := List.map_eq_nil_iff.mp hmap
    rw [hd] at h
    simp [dictMem, dictGet] at h
  · rw [if_neg h]
    simp

theorem extractStep_ne_nil_of_ne_nil (now : String)
    (acc : List (String × PluginMeta)) (p : String × ScopedEntry)
    (h : acc ≠ []) : extractStep now acc p ≠ [] := by
  unfold extractStep
  by_cases hsrc : p.2.metadata.source ≠ "plugin"
  · rw [if_pos hsrc]
    exact h
  · rw [if_neg hsrc]
    simp only
    by_cases hmem : dictMem acc ((p.2.metadata.plugin_name).getD "unknown") = true
    · rw [if_pos hmem]
      cases hget : dictGet acc ((p.2.metadata.plugin_name).getD "unknown") with
      | none => exact h
      | some m => exact dictSet_ne_nil _ _ _
    · rw [if_neg hmem]
      cases hget : dictGet (dictSet acc ((p.2.metadata.plugin_name).getD "unknown")
          { version := (p.2.metadata.plugin_version).getD "unknown",
            mcp_count := 0, mcp_servers := [], last_sync := now })
          ((p.2.metadata.plugin_name).getD "unknown") with
      | none => exact dictSet_ne_nil _ _ _
      | some m => exact dictSet_ne_nil _ _ _

theorem extractStep_ne_nil_of_plugin (now : String)
    (acc : List (String × PluginMeta)) (p : String × ScopedEntry)
    (h : p.2.metadata.source = "plugin") : extractStep now acc p ≠ [] := by
  unfold extractStep
  rw [if_neg (by simp [h])]
  simp only
  by_cases hmem : dictMem acc ((p.2.metadata.plugin_name).getD "unknown") = true
  · rw [if_pos hmem]
    cases hget : dictGet acc ((p.2.metadata.plugin_name).getD "unknown") with
    | none =>
        exfalso
        rw [dictMem, hget] at hmem
        cases hmem
    | some m => exact dictSet_ne_nil _ _ _
  · rw [if_neg hmem]
    cases hget : dictGet (dictSet acc ((p.2.metadata.plugin_name).getD "unknown")
        { version := (p.2.metadata.plugin_version).getD "unknown",
          mcp_count := 0, mcp_servers := [], last_sync := now })
        ((p.2.metadata.plugin_name).getD "unknown") with
    | none => exact dictSet_ne_nil _ _ _
    | some m => exact dictSet_ne_nil _ _ _

theorem foldl_extractStep_ne_nil (now : String)
    (l : List (String × ScopedEntry)) (acc : List (String × PluginMeta))
    (h : acc ≠ []) : l.foldl (extractStep now) acc ≠ [] := by
  induction l generalizing acc with
  | nil => exact h
  | cons p t ih =>
      rw [List.foldl_cons]
      exact ih _ (extractStep_ne_nil_of_ne_nil now acc p h)

theorem extract_plugin_metadata_eq_nil_iff
    (l : List (String × ScopedEntry)) (now : String) :
    extract_plugin_metadata l now = [] ↔
      ∀ p ∈ l, p.2.metadata.source ≠ "plugin" := by
  unfold extract_plugin_metadata
  have aux : ∀ (t : List (String × ScopedEntry))
      (acc : List (String × PluginMeta)),
      (t.foldl (extractStep now) acc = [] ↔
        (acc = [] ∧ ∀ p ∈ t, p.2.metadata.source ≠ "plugin")) := by
    intro t
    induction t with
    | nil => simp
    | cons p r ih =>
        intro acc
        rw [List.foldl_cons]
        by_cases hsrc : p.2.metadata.source = "plugin"
        · constructor
          · intro h0
            exact absurd h0
              (foldl_extractStep_ne_nil now r _
                (extractStep_ne_nil_of_plugin now acc p hsrc))
          · rintro ⟨-, hall⟩
            exact absurd hsrc (hall p (List.mem_cons_self p r))
        · have hstep : extractStep now acc p = acc := by
            unfold extractStep
            rw [if_pos hsrc]
          rw [hstep, ih acc]
          constructor
          · rintro ⟨h1, h2⟩
            refine ⟨h1, ?_⟩
            intro q hq
            rcases List.mem_cons.mp hq with hq1 | hq1
            · rw [hq1]
              exact hsrc
            · exact h2 q hq1
          · rintro ⟨h1, h2⟩
            exact ⟨h1, fun q hq => h2 q (List.mem_cons_of_mem p hq)⟩
  rw [aux l []]
  simp

theorem lookupStoredPlugins_record_sync (st : StateDoc)
    (target scope : String) (fh sm : List (String × String))
    (s k f : Nat) (account : Option String) (now : String) :
    lookupStoredPlugins
        (record_sync st target scope fh sm s k f account now) account =
      lookupStoredPlugins st account := by
  cases account with
  | none => rfl
  | some a =>
      unfold record_sync lookupStoredPlugins
      simp only
      rw [dictGet_dictSet, if_pos rfl]
      cases h : dictGet st.accounts a <;> simp [h]

theorem lookupStoredPlugins_updateStep (st : StateDoc)
    (tr : String × List (String × SyncResult))
    (fh : List (String × String)) (scope : String)
    (account : Option String) (now : String) :
    lookupStoredPlugins (updateStep fh scope account now st tr) account =
      lookupStoredPlugins st account := by
  unfold updateStep
  by_cases h : leadsL "_".data tr.1.data = true
  · rw [if_pos h]
  · rw [if_neg h]
    exact lookupStoredPlugins_record_sync st tr.1 scope fh [] _ _ _ account now

theorem lookupStoredPlugins_foldl_updateStep
    (results : List (String × List (String × SyncResult)))
    (st : StateDoc) (fh : List (String × String)) (scope : String)
    (account : Option String) (now : String) :
    lookupStoredPlugins
        (results.foldl (updateStep fh scope account now) st) account =
      lookupStoredPlugins st account := by
  induction results generalizing st with
  | nil => rfl
  | cons tr t ih =>
      rw [List.foldl_cons, ih, lookupStoredPlugins_updateStep]

theorem lookupStoredPlugins_record_plugin_sync (st : StateDoc)
    (pm : List (String × PluginMeta)) (account : Option String) :
    lookupStoredPlugins (record_plugin_sync st pm account) account = pm := by
  cases account with
  | none => rfl
  | some a =>
      unfold record_plugin_sync lookupStoredPlugins
      simp only
      rw [dictGet_dictSet, if_pos rfl]

/-- C10: when a non-preview run discovers no plugin-sourced MCP server,
the orchestrator's state update leaves the stored plugins section exactly
as it was (so stale plugin entries survive); as soon as at least one
plugin-sourced server is discovered, the plugins section is wholly
replaced by the freshly extracted metadata. -/
theorem update_state_plugins_spec (st : StateDoc)
    (results : List (String × List (String × SyncResult)))
    (file_hashes : List (String × String)) (scope : String)
    (account : Option String) (mcp_scoped : List (String × ScopedEntry))
    (now : String) :
    ((∀ p ∈ mcp_scoped, p.2.metadata.source ≠ "plugin") →
      lookupStoredPlugins
          (updateState st results file_hashes scope account mcp_scoped now)
          account =
        lookupStoredPlugins st account) ∧
    ((∃ p ∈ mcp_scoped, p.2.metadata.source = "plugin") →
      lookupStoredPlugins
          (updateState st results file_hashes scope account mcp_scoped now)
          account =
        extract_plugin_metadata mcp_scoped now) := by
  constructor
  · intro h
    have hext : extract_plugin_metadata mcp_scoped now = [] :=
      (extract_plugin_metadata_eq_nil_iff mcp_scoped now).mpr h
    unfold updateState
    simp only [hext, List.isEmpty_nil, if_true]
    exact lookupStoredPlugins_foldl_updateStep results st file_hashes
      scope account now
  · rintro ⟨p, hp, hsrc⟩
    have hext : extract_plugin_metadata mcp_scoped now ≠ [] := by
      intro h0
      exact (extract_plugin_metadata_eq_nil_iff mcp_scoped now).mp h0 p hp hsrc
    unfold updateState
    simp only
    rw [if_neg (fun hh => hext (List.isEmpty_iff.mp hh))]
    exact lookupStoredPlugins_record_plugin_sync _ _ account

/-- Witness for C10 at a concrete run: with only a file-sourced scoped
server the stale stored plugin survives the state update untouched. -/
theorem update_state_plugins_spec_witness :
    (∀ p ∈ [("srv",
        ({ config := [],
           metadata := { scope := "user", source := "file" } } : ScopedEntry))],
       p.2.metadata.source ≠ "plugin") ∧
    lookupStoredPlugins
        (updateState { plugins := [("old", { version := "1" })] }
          [("codex", [("rules", { synced := 1 })])] [] "all" none
          [("srv", { config := [],
                     metadata := { scope := "user", source := "file" } })]
          "t1") none =
      [("old", { version := "1" })] := by
  refine ⟨by decide, ?_⟩
  rw [(update_state_plugins_spec { plugins := [("old", { version := "1" })] }
      [("codex", [("rules", { synced := 1 })])] [] "all" none
      [("srv", { config := [],
                 metadata := { scope := "user", source := "file" } })]
      "t1").1 (by decide)]
  rfl

end HarnessSync

